import Mathlib

/-
Verification of the continuous-extension layer of the DDE integrator
(`scipy/integrate/_dde/common.py`): the piecewise-interpolant stitching
class `ContinuousExt` (construction with duplicate-time filtering, scalar
and batched evaluation, range truncation) and the initial step heuristic
`select_initial_step`.

Times and state values are modelled as exact rationals; IEEE machine
epsilon `np.finfo(float).eps` is the exact rational `2 ^ (-52)`.  Python
exceptions are modelled by `Except String`; Python list indexing, which
raises `IndexError` out of range and supports negative indices, is
modelled by `pyIdxN` and `pyGetI`.  The step heuristic, whose arithmetic
involves a real exponent, is modelled over the reals.
-/

set_option maxHeartbeats 1000000

namespace DDE

/-- Machine epsilon of IEEE double precision, `np.finfo(float).eps`,
which equals `2 ^ (-52)`, modelled as an exact rational. -/
def EPS : ℚ := 1 / 4503599627370496

/-- `np.searchsorted(xs, t)` with side left on a sorted array: the number
of elements strictly below `t`, i.e. the leftmost insertion index. -/
def ssLeft (xs : List ℚ) (t : ℚ) : ℕ := xs.countP (fun x => decide (x < t))

/-- `np.searchsorted(xs, t)` with side right on a sorted array: the number
of elements at most `t`, i.e. the rightmost insertion index. -/
def ssRight (xs : List ℚ) (t : ℚ) : ℕ := xs.countP (fun x => decide (x ≤ t))

/-- Python list indexing `xs[i]` for a nonnegative index: raises
`IndexError` when out of range. -/
def pyIdxN (xs : List α) (i : ℕ) : Except String α :=
  match xs.get? i with
  | some v => .ok v
  | none => .error "IndexError: list index out of range"

/-- Python list indexing `xs[i]` for a possibly negative index: a negative
index counts from the end of the list. -/
def pyGetI (xs : List α) (i : ℤ) : Except String α :=
  let j : ℤ := if i < 0 then i + xs.length else i
  if 0 ≤ j then pyIdxN xs j.toNat else .error "IndexError: list index out of range"

/-- Whether an exception-raising computation returned normally. -/
def isOk : Except String α → Bool
  | .ok _ => true
  | .error _ => false

/-- `np.diff(ts)` (equivalently `np.ediff1d(ts)`): consecutive differences. -/
def listDiff (xs : List ℚ) : List ℚ := List.zipWith (fun a b => b - a) xs xs.tail

/-- `np.argwhere(np.diff(ts) < EPS) + 1`, flattened: the positions of the
second member of each adjacent pair whose gap is below `EPS`. -/
def dupIdxs (ts : List ℚ) : List ℕ :=
  (((listDiff ts).enum.filter (fun p => decide (p.2 < EPS))).map (fun p => p.1 + 1))

/-- List comprehension dropping the entries whose position is in `idxs`. -/
def removeIdxs (xs : List α) (idxs : List ℕ) : List α :=
  ((xs.enum.filter (fun p => decide (p.1 ∉ idxs))).map Prod.snd)

/-- The duplicate positions that `ContinuousExt.__init__` works with:
computed only when some adjacent gap of `ts` is below `EPS`, otherwise the
duplicate-filtering block is skipped. -/
def initIdxs (ts : List ℚ) : List ℕ :=
  if (listDiff ts).any (fun d => decide (d < EPS)) then dupIdxs ts else []

/-- The monotonicity condition accepted by `ContinuousExt.__init__`: a
two-point zero-length segment, or all consecutive differences positive, or
all negative. -/
def monotonicOKBool (ts : List ℚ) : Bool :=
  let d := listDiff ts
  (ts.length == 2 && decide (ts.headD 0 = ts.getLastD 0)) || (d.all (fun x => decide (0 < x)) || d.all (fun x => decide (x < 0)))

/-- A stored interpolant.  The first (history) segment is polymorphic in
the source: a Python list of scalar-valued callables, a plain function
returning a state vector, or a constant `np.ndarray`.  Segments past the
first are dense-output callables, i.e. the `hfun` case; calling a list or
an array raises `TypeError`. -/
inductive Interp where
  | hlist : List (ℚ → ℚ) → Interp
  | hfun : (ℚ → List ℚ) → Interp
  | hconst : List ℚ → Interp

/-- The state of a constructed `ContinuousExt` object.  `ts` and `ys` are
the working (duplicate-filtered) arrays; `idxs`, `t_discont`, `y_discont`
form the discontinuity table (empty and never read when `repeated_t` is
false, matching the attributes being unset in the source). -/
structure ContinuousExt where
  repeated_t : Bool
  idxs : List ℕ
  t_discont : List ℚ
  y_discont : List (List ℚ)
  ys : List (List ℚ)
  n_segments : ℕ
  ts : List ℚ
  interpolants : List Interp
  t_min : ℚ
  t_max : ℚ
  ascending : Bool
  ts_sorted : List ℚ

/-- `ContinuousExt.__init__`: detect duplicate (below-`EPS`) adjacent
times, record the discontinuity table and drop the duplicates, validate
monotonicity and the array lengths, then cache orientation, bounds, and
the sorted view of `ts`. -/
def init (ts : List ℚ) (interpolants : List Interp) (ys : List (List ℚ)) :
    Except String ContinuousExt :=
  let rep := (listDiff ts).any (fun d => decide (d < EPS))
  let idxs := initIdxs ts
  match idxs.mapM (fun i => pyIdxN ts i) with
  | .error e => .error e
  | .ok t_discont =>
    match idxs.mapM (fun i => pyIdxN ys i) with
    | .error e => .error e
    | .ok y_discont =>
      let ts' := removeIdxs ts idxs
      let ys' := removeIdxs ys idxs
      if monotonicOKBool ts' then
        let n_segments := interpolants.length
        if ts'.length = n_segments + 1 ∧ ts'.length = ys'.length then
          if ts'.length = ys'.length then
            if ts'.getLastD 0 ≥ ts'.headD 0 then
              .ok ⟨rep, idxs, t_discont, y_discont, ys', n_segments, ts', interpolants,
                   ts'.headD 0, ts'.getLastD 0, true, ts'⟩
            else
              .ok ⟨rep, idxs, t_discont, y_discont, ys', n_segments, ts', interpolants,
                   ts'.getLastD 0, ts'.headD 0, false, ts'.reverse⟩
          else .error "number of ys and ts don't match."
        else .error "Numbers of time stamps and interpolants don't match."
      else .error "`ts` must be strictly increasing or decreasing."

/-- The segment-index computation of `_call_single` (source lines 226-233):
binary search with side left when ascending and side right when
descending, minus one, clamped into the segment range, and flipped for a
descending orientation. -/
def selectSegment (asc : Bool) (ts_sorted : List ℚ) (n_seg : ℤ) (t : ℚ) : ℤ :=
  let ind : ℤ := if asc then (ssLeft ts_sorted t : ℤ) else (ssRight ts_sorted t : ℤ)
  let segment := min (max (ind - 1) 0) (n_seg - 1)
  if asc then segment else n_seg - 1 - segment

/-- The vectorized segment-index computation of `__call__` (source lines
302-310): subtract one, set negative entries to 0, set entries past
`n_segments - 1` to `n_segments - 1`, flip when descending. -/
def batchSegment (asc : Bool) (ts_sorted : List ℚ) (n_seg : ℤ) (t : ℚ) : ℤ :=
  let ind : ℤ := if asc then (ssLeft ts_sorted t : ℤ) else (ssRight ts_sorted t : ℤ)
  let s1 := ind - 1
  let s2 := if s1 < 0 then 0 else s1
  let s3 := if n_seg - 1 < s2 then n_seg - 1 else s2
  if asc then s3 else n_seg - 1 - s3

/-- Elementwise image of the vectorized segment computation. -/
def batchSegments (asc : Bool) (ts_sorted : List ℚ) (n_seg : ℤ) (ts : List ℚ) : List ℤ :=
  ts.map (batchSegment asc ts_sorted n_seg)

/-- `ContinuousExt._call_single`: discontinuity special case first, then
segment search and dispatch on the representation of the selected
interpolant (three-way dispatch for the history segment). -/
def callSingle (s : ContinuousExt) (t : ℚ) : Except String (List ℚ) :=
  if s.repeated_t && s.t_discont.any (fun td => decide (|td - t| < EPS)) then
    let ind := if s.ascending then ssLeft s.t_discont t else ssRight s.t_discont t
    pyIdxN s.y_discont ind
  else
    let segment := selectSegment s.ascending s.ts_sorted (s.n_segments : ℤ) t
    if segment = 0 then
      match pyGetI s.interpolants segment with
      | .error e => .error e
      | .ok history =>
        match history with
        | .hlist fs => .ok (fs.map (fun f => f t))
        | .hfun f => .ok (f t)
        | .hconst v => .ok v
    else
      match pyGetI s.interpolants segment with
      | .error e => .error e
      | .ok interp =>
        match interp with
        | .hfun f => .ok (f t)
        | _ => .error "TypeError: object is not callable"

/-- Stable insertion of index `i` into an index list already sorted by the
key list `t`, after all indices holding a key at most `t[i]`. -/
def argInsert (t : List ℚ) (i : ℕ) : List ℕ → List ℕ
  | [] => [i]
  | j :: rest =>
    if t.getD j 0 ≤ t.getD i 0 then j :: argInsert t i rest else i :: j :: rest

/-- `np.argsort(t)`: the permutation of positions sorting `t`, realized as
a stable insertion sort (ties keep the original order). -/
def argsortQ (t : List ℚ) : List ℕ :=
  (List.range t.length).foldl (fun acc i => argInsert t i acc) []

/-- Python slice `xs[a:b]`. -/
def sliceList (xs : List α) (a b : ℕ) : List α := (xs.drop a).take (b - a)

/-- `itertools.groupby` on the segment array: contiguous run-length
encoding, left to right. -/
def runLengths : List ℤ → List (ℤ × ℕ)
  | [] => []
  | x :: xs =>
    match runLengths xs with
    | [] => [(x, 1)]
    | (y, c) :: rest => if x = y then (x, c + 1) :: rest else (x, 1) :: (y, c) :: rest

/-- Numpy column assignment `y[:, k] = va` into a column of height `n`:
exact-length assignment, length-one broadcast, otherwise a broadcast
error. -/
def broadcastTo (n : ℕ) (va : List ℚ) : Except String (List ℚ) :=
  if va.length = n then .ok va
  else if va.length = 1 then .ok (List.replicate n (va.headD 0))
  else .error "could not broadcast input array"

/-- One column of the history-segment loop of `__call__`: the three-way
dispatch on the history representation evaluated at one time, written
into a column of height `n` (the height is `len(self.ys[0])` there). -/
def histVal (interp : Interp) (n : ℕ) (tk : ℚ) : Except String (List ℚ) :=
  match interp with
  | .hlist fs =>
    match (List.range n).mapM (fun m => pyIdxN fs m) with
    | .error e => .error e
    | .ok gs => .ok (gs.map (fun f => f tk))
  | .hfun f => broadcastTo n (f tk)
  | .hconst v => broadcastTo n v

/-- The grouped evaluation loop of `__call__`.  `tArr` is the
(deduplicated, unsorted) query array `t` and `t_sorted` its sorted copy;
the loop walks the runs of equal segment index.  A history run evaluates
pointwise at `t[k]` for `k` below the run length, exactly as in the
source (`k` indexes the unsorted array there); any other run applies the
dense-output callable to the sorted sub-array. -/
def evalRuns (s : ContinuousExt) (tArr t_sorted : List ℚ) :
    List (ℤ × ℕ) → ℕ → Except String (List (List ℚ))
  | [], _ => .ok []
  | (seg, cnt) :: rest, group_start =>
    let group_end := group_start + cnt
    let sub := sliceList t_sorted group_start group_end
    let groupCols : Except String (List (List ℚ)) :=
      if seg = 0 then
        match pyGetI s.interpolants seg with
        | .error e => .error e
        | .ok interp =>
          match pyIdxN s.ys 0 with
          | .error e => .error e
          | .ok y0 =>
            (List.range sub.length).mapM (fun k =>
              match pyIdxN tArr k with
              | .error e => .error e
              | .ok tk => histVal interp y0.length tk)
      else
        match pyGetI s.interpolants seg with
        | .error e => .error e
        | .ok interp =>
          match interp with
          | .hfun f => .ok (sub.map f)
          | _ => .error "TypeError: object is not callable"
    match groupCols with
    | .error e => .error e
    | .ok cols =>
      match evalRuns s tArr t_sorted rest group_end with
      | .error e => .error e
      | .ok more => .ok (cols ++ more)

/-- `xs.take i ++ v :: xs.drop i`, the effect of `np.insert(xs, i, v)` for
an in-range index. -/
def insertAt (xs : List α) (i : ℕ) (v : α) : List α := xs.take i ++ v :: xs.drop i

/-- The discontinuity-reinsertion loop at the end of `__call__`: for each
recorded discontinuity, search the running time axis, insert the recorded
time and the recorded jump column one past the found position.
`np.insert` raises when the position exceeds the current length. -/
def reinsertLoop (t_discont : List ℚ) (y_discont : List (List ℚ)) :
    List ℕ → List ℚ → List (List ℚ) → Except String (List (List ℚ))
  | [], _, cols => .ok cols
  | k :: ks, t_tmp, cols =>
    match pyIdxN t_discont k with
    | .error e => .error e
    | .ok td =>
      match pyIdxN y_discont k with
      | .error e => .error e
      | .ok yd =>
        let idx := ssLeft t_tmp td + 1
        if t_tmp.length < idx then .error "IndexError: index out of bounds"
        else if cols.length < idx then .error "IndexError: index out of bounds"
        else reinsertLoop t_discont y_discont ks (insertAt t_tmp idx td) (insertAt cols idx yd)

/-- `ContinuousExt.__call__` on a one-dimensional array of query times,
returning the result matrix as its list of columns (one column per query
time).  On an instance with discontinuities the query must contain
below-`EPS` adjacent gaps, which are deleted before evaluation and whose
recorded jump values are reinserted afterwards; the remaining times are
sorted, assigned to segments, evaluated by contiguous runs and permuted
back to the original order. -/
def call (s : ContinuousExt) (tIn : List ℚ) : Except String (List (List ℚ)) :=
  let pre : Except String (List ℚ) :=
    if s.repeated_t then
      if ¬ (listDiff tIn).any (fun d => decide (d < EPS)) then
        .error "as discontinuities within tspan the user have to provide t with disconts"
      else .ok (removeIdxs tIn (dupIdxs tIn))
    else .ok tIn
  match pre with
  | .error e => .error e
  | .ok t =>
    let order := argsortQ t
    let t_sorted := order.map (fun i => t.getD i 0)
    let segs := batchSegments s.ascending s.ts_sorted (s.n_segments : ℤ) t_sorted
    match evalRuns s t t_sorted (runLengths segs) 0 with
    | .error e => .error e
    | .ok sortedCols =>
      if sortedCols.isEmpty then .error "need at least one array to concatenate"
      else
        let cols := (List.range t.length).map
          (fun j => sortedCols.getD (order.findIdx (fun x => x == j)) [])
        if s.repeated_t then
          reinsertLoop s.t_discont s.y_discont (List.range s.idxs.length) t_sorted cols
        else .ok cols

/-- `ContinuousExt.reorganize`: truncate `ts` and `interpolants` at one
past the leftmost insertion position of the new end time.  No other field
is updated by the source. -/
def reorganize (s : ContinuousExt) (t0_new : ℚ) : ContinuousExt :=
  let idx := ssLeft s.ts t0_new + 1
  { s with ts := s.ts.take idx, interpolants := s.interpolants.take idx }

/-- `norm(x) = np.linalg.norm(x) / x.size ** 0.5`, the RMS norm, over the
reals. -/
noncomputable def normRMS (x : List ℝ) : ℝ :=
  Real.sqrt ((x.map (fun v => v ^ 2)).sum) / Real.sqrt (x.length : ℝ)

open scoped Classical in
/-- `select_initial_step` over the reals.  The unbounded step `np.inf`
returned for an empty state vector is modelled as `none`; every other
return value is `some`.  The right-hand side `fun` receives the trial
time, the trial state and the history term `Z0`. -/
noncomputable def select_initial_step (f : ℝ → List ℝ → List ℝ → List ℝ)
    (t0 : ℝ) (y0 Z0 f0 : List ℝ) (direction order rtol atol : ℝ) : Option ℝ :=
  if y0.length = 0 then none
  else
    let scale := y0.map (fun y => atol + |y| * rtol)
    let d0 := normRMS (List.zipWith (fun a b => a / b) y0 scale)
    let d1 := normRMS (List.zipWith (fun a b => a / b) f0 scale)
    let h0 := if d0 < 1e-5 ∨ d1 < 1e-5 then 1e-6 else 0.01 * d0 / d1
    let y1 := List.zipWith (fun y fv => y + h0 * direction * fv) y0 f0
    let f1 := f (t0 + h0 * direction) y1 Z0
    let d2 := normRMS (List.zipWith (fun a b => a / b) (List.zipWith (fun a b => a - b) f1 f0) scale) / h0
    let h1 := if d1 ≤ 1e-15 ∧ d2 ≤ 1e-15 then max 1e-6 (h0 * 1e-3)
              else (0.01 / max d1 d2) ^ (1 / (order + 1))
    some (min (100 * h0) h1)

/-! Helper lemmas about the search primitives. -/

theorem ssLeft_sorted (xs : List ℚ) (hs : xs.Pairwise (· < ·)) :
    ∀ i, (hi : i < xs.length) → ssLeft xs xs[i] = i := by
  induction xs with
  | nil => intro i hi; simp at hi
  | cons x xs ih =>
    intro i hi
    obtain ⟨hx, hxs⟩ := List.pairwise_cons.mp hs
    cases i with
    | zero =>
      simp only [List.getElem_cons_zero, ssLeft, List.countP_cons]
      have h0 : xs.countP (fun y => decide (y < x)) = 0 := by
        apply List.countP_eq_zero.mpr
        intro a ha
        simp only [decide_eq_true_eq, not_lt]
        exact le_of_lt (hx a ha)
      simp [h0]
    | succ i =>
      have hi' : i < xs.length := by simpa using hi
      have hx' : x < xs[i] := hx _ (List.getElem_mem hi')
      have hih := ih hxs i hi'
      simp only [List.getElem_cons_succ, ssLeft, List.countP_cons] at *
      simp [hih, hx']

theorem ssRight_sorted (xs : List ℚ) (hs : xs.Pairwise (· < ·)) :
    ∀ i, (hi : i < xs.length) → ssRight xs xs[i] = i + 1 := by
  induction xs with
  | nil => intro i hi; simp at hi
  | cons x xs ih =>
    intro i hi
    obtain ⟨hx, hxs⟩ := List.pairwise_cons.mp hs
    cases i with
    | zero =>
      simp only [List.getElem_cons_zero, ssRight, List.countP_cons]
      have h0 : xs.countP (fun y => decide (y ≤ x)) = 0 := by
        apply List.countP_eq_zero.mpr
        intro a ha
        simp only [decide_eq_true_eq, not_le]
        exact hx a ha
      simp [h0]
    | succ i =>
      have hi' : i < xs.length := by simpa using hi
      have hx' : x ≤ xs[i] := le_of_lt (hx _ (List.getElem_mem hi'))
      have hih := ih hxs i hi'
      simp only [List.getElem_cons_succ, ssRight, List.countP_cons] at *
      simp [hih, hx']

theorem pyGetI_take_eq (l : List α) (i : ℕ) (k : ℤ) (h0 : 0 ≤ k) (h1 : k ≤ (i : ℤ)) :
    pyGetI (l.take (i + 1)) k = pyGetI l k := by
  have hk : ¬ k < 0 := not_lt.mpr h0
  have hlt : k.toNat < i + 1 := by omega
  simp only [pyGetI, hk, if_false, h0, if_true, pyIdxN, List.get?_take hlt]

theorem getLastD_of_ne_nil {l : List α} (h : l ≠ []) (a b : α) :
    l.getLastD a = l.getLastD b := by
  obtain ⟨y, hy⟩ := Option.isSome_iff_exists.mp (List.getLast?_isSome.mpr h)
  simp [List.getLastD_eq_getLast?, hy]

theorem getLastD_take (xs : List ℚ) (i : ℕ) (hi : i < xs.length) :
    (xs.take (i + 1)).getLastD 0 = xs[i] := by
  induction xs generalizing i with
  | nil => simp at hi
  | cons x xs ih =>
    cases i with
    | zero => simp
    | succ i =>
      have hi' : i < xs.length := by simpa using hi
      have hne : xs.take (i + 1) ≠ [] := by
        have hlt : 0 < (xs.take (i + 1)).length := by
          rw [List.length_take]; omega
        intro hn
        rw [hn] at hlt
        simp at hlt
      rw [List.take_succ_cons, List.getElem_cons_succ, List.getLastD_cons,
        getLastD_of_ne_nil hne x 0]
      exact ih i hi'

/-! Theorems for the claims. -/

/-- C1: the claim states that batched evaluation equals columnwise scalar
evaluation for every instance and every time array.  This fails: in the
batched history-segment loop the source evaluates the interpolant at
`t[k]`, where `k` counts inside the current run but indexes the original
unsorted query array, so with history `f(u) = [u]`, dense output
`g(u) = [u + 10]`, and query array `[3/2, 1/2]`, the batched column for
time `1/2` holds `f(3/2) = [3/2]` while the scalar path returns `[1/2]`. -/
theorem c1_batched_equals_scalar_fails :
    (init [0, 1, 2] [Interp.hfun (fun u => [u]), Interp.hfun (fun u => [u + 10])]
        [[0], [1], [2]]).bind (fun s => call s [3/2, 1/2]) = .ok [[23/2], [3/2]]
    ∧ (init [0, 1, 2] [Interp.hfun (fun u => [u]), Interp.hfun (fun u => [u + 10])]
        [[0], [1], [2]]).bind (fun s =>
          (callSingle s (3/2)).bind (fun v1 =>
            (callSingle s (1/2)).map (fun v2 => [v1, v2]))) = .ok [[23/2], [1/2]]
    ∧ ([[(23 : ℚ)/2], [3/2]] : List (List ℚ)) ≠ [[23/2], [1/2]] :=
  ⟨by with_unfolding_all rfl, by with_unfolding_all rfl, by with_unfolding_all decide⟩

/-- C2: the claim states that construction succeeds for every strictly
monotonic `ts`.  For a strictly decreasing `ts` every adjacent difference
is negative and hence below `EPS`, so the duplicate-detection block of
`__init__` treats all of them as discontinuities and deletes every entry
but the first; the length validation then raises.  Construction of the
strictly decreasing `ts = [2, 1, 0]` therefore fails, contradicting the
claim and the docstring of the class. -/
theorem c2_descending_construction_fails :
    init [2, 1, 0] [Interp.hfun (fun u => [u]), Interp.hfun (fun u => [u + 10])]
        [[0], [1], [2]]
      = .error "Numbers of time stamps and interpolants don't match." := by
  with_unfolding_all rfl

/-- C5: the claim states that a batched query without adjacent
near-duplicate markers on a discontinuity-bearing instance fails.  The
check in `__call__` only tests `np.any(np.diff(t) < EPS)`, which any
descending adjacent pair satisfies, so the unsorted query `[2, 3/2]` with
no near-duplicate pair (its sole gap has magnitude `1/2`, far above
`EPS`) is accepted: the entry `3/2` is deleted as a supposed duplicate
and a matrix is returned instead of an error. -/
theorem c5_query_without_markers_not_rejected :
    ((listDiff [(2 : ℚ), 3/2]).any (fun d => decide (|d| < EPS)) = false)
    ∧ (init [0, 1, 1, 2] [Interp.hfun (fun u => [u]), Interp.hfun (fun u => [u + 10])]
        [[0], [1], [5], [2]]).bind (fun s => call s [2, 3/2]) = .ok [[12], [5]] :=
  ⟨by with_unfolding_all decide, by with_unfolding_all rfl⟩

/-- C7: the claim states that a two-point zero-length boundary sequence is
accepted.  A zero gap is below `EPS`, so the duplicate-detection block
removes the second point before the zero-length check can ever see a
two-point sequence; the length validation then raises, so construction
with `ts = [0, 0]`, one interpolant, and two boundary values fails,
contradicting the claim, the docstring, and the dead zero-length branch
of the monotonicity check. -/
theorem c7_zero_length_construction_fails :
    init [0, 0] [Interp.hfun (fun u => [u])] [[1], [2]]
      = .error "Numbers of time stamps and interpolants don't match." := by
  with_unfolding_all rfl

/-- C10 counterexample: the claim quantifies over every discontinuity-free
instance, but construction accepts a single boundary time with an empty
interpolant list, and a scalar query on that instance clamps the segment
index to `n_segments - 1 = -1`, so the Python negative-index lookup on the
empty interpolant list raises `IndexError` — an out-of-range error. -/
theorem c10_zero_segments_index_error :
    isOk (init [0] [] [[1]]) = true
    ∧ (init [0] [] [[1]]).bind (fun s => callSingle s 5)
      = .error "IndexError: list index out of range" :=
  ⟨by with_unfolding_all rfl, by with_unfolding_all rfl⟩

theorem selectSegment_bounds (asc : Bool) (xs : List ℚ) (n : ℤ) (t : ℚ) (hn : 1 ≤ n) :
    0 ≤ selectSegment asc xs n t ∧ selectSegment asc xs n t ≤ n - 1 := by
  unfold selectSegment
  have hL : (0 : ℤ) ≤ (ssLeft xs t : ℤ) := Int.ofNat_nonneg _
  have hR : (0 : ℤ) ≤ (ssRight xs t : ℤ) := Int.ofNat_nonneg _
  cases asc <;> simp only [Bool.false_eq_true, if_false, if_true, reduceIte] <;>
    constructor <;> simp only [min_def, max_def] <;> split_ifs <;> omega

theorem batchSegment_bounds (asc : Bool) (xs : List ℚ) (n : ℤ) (t : ℚ) (hn : 1 ≤ n) :
    0 ≤ batchSegment asc xs n t ∧ batchSegment asc xs n t ≤ n - 1 := by
  unfold batchSegment
  have hL : (0 : ℤ) ≤ (ssLeft xs t : ℤ) := Int.ofNat_nonneg _
  have hR : (0 : ℤ) ≤ (ssRight xs t : ℤ) := Int.ofNat_nonneg _
  cases asc <;> simp only [Bool.false_eq_true, if_false, if_true, reduceIte] <;>
    constructor <;> split_ifs <;> omega

theorem pyGetI_ok_of_lt (l : List α) (k : ℤ) (h0 : 0 ≤ k) (hk : k.toNat < l.length) :
    ∃ v, pyGetI l k = .ok v := by
  have hneg : ¬ k < 0 := not_lt.mpr h0
  simp only [pyGetI, hneg, if_false, h0, if_true, pyIdxN]
  cases hg : l.get? k.toNat with
  | none =>
    have := List.get?_eq_none.mp hg
    omega
  | some v => exact ⟨v, rfl⟩

/-- C3: at an interior boundary `ts[i]` (`i` positive) the scalar segment
search of `_call_single` selects the lower-indexed adjacent segment
`i - 1` in traversal order, for both orientations.  For an ascending
instance the stored sorted view is `ts` itself and the boundary is
`ts[i]`; for a descending instance with boundary sequence `ts.reverse`
the stored sorted view is again `ts` and boundary number `i` of the
instance is `ts[n - i]`, searched with side right, index-corrected,
clamped, and flipped. -/
theorem c3_boundary_tie_break (ts : List ℚ) (n i : ℕ) (hs : ts.Pairwise (· < ·))
    (hi1 : 1 ≤ i) (hin : i ≤ n) (hia : i < ts.length) (hib : n - i < ts.length) :
    selectSegment true ts (n : ℤ) ts[i] = (i : ℤ) - 1
    ∧ selectSegment false ts (n : ℤ) ts[n - i] = (i : ℤ) - 1 := by
  have h1 := ssLeft_sorted ts hs i hia
  have h2 := ssRight_sorted ts hs (n - i) hib
  constructor
  · simp only [selectSegment, if_true, h1, reduceIte]
    simp only [min_def, max_def]
    split_ifs <;> omega
  · simp only [selectSegment, Bool.false_eq_true, if_false, h2, reduceIte]
    simp only [min_def, max_def]
    split_ifs <;> omega

/-- C3 witness: the ascending instance with boundaries `[0, 1, 2]` and the
descending instance with boundaries `[2, 1, 0]` (sorted view `[0, 1, 2]`)
both select segment `0` at their interior boundary number `1`. -/
theorem c3_boundary_tie_break_witness :
    selectSegment true [0, 1, 2] 2 1 = 0 ∧ selectSegment false [0, 1, 2] 2 1 = 0 := by
  have h := c3_boundary_tie_break [0, 1, 2] 2 1 (by with_unfolding_all decide)
    (by decide) (by decide) (by decide) (by decide)
  simpa using h

/-- C6: whenever the duplicate-filtered boundary sequence is neither
strictly increasing, nor strictly decreasing, nor a two-point zero-length
segment, or the filtered lengths of `ts`, `interpolants` and `ys` are
inconsistent, construction raises and no object is produced. -/
theorem c6_invalid_construction_rejected (ts : List ℚ) (intps : List Interp)
    (ys : List (List ℚ))
    (H : monotonicOKBool (removeIdxs ts (initIdxs ts)) = false
      ∨ (removeIdxs ts (initIdxs ts)).length ≠ intps.length + 1
      ∨ (removeIdxs ts (initIdxs ts)).length ≠ (removeIdxs ys (initIdxs ts)).length) :
    ∃ e, init ts intps ys = .error e := by
  simp only [init]
  split
  · exact ⟨_, rfl⟩
  · split
    · exact ⟨_, rfl⟩
    · split_ifs with hmono hsh hys hord
      · exfalso
        rcases H with h | h | h
        · rw [h] at hmono; exact Bool.false_ne_true hmono
        · exact h hsh.1
        · exact h hsh.2
      · exfalso
        rcases H with h | h | h
        · rw [h] at hmono; exact Bool.false_ne_true hmono
        · exact h hsh.1
        · exact h hsh.2
      · exact ⟨_, rfl⟩
      · exact ⟨_, rfl⟩
      · exact ⟨_, rfl⟩

/-- C6 witness: `ts = [10, -20, -10, 20]` has one below-`EPS` gap, whose
removal leaves `[10, -10, 20]`, which is neither monotonic nor a
two-point zero-length segment, so construction fails. -/
theorem c6_invalid_construction_witness :
    ∃ e, init [10, -20, -10, 20] [] [[0], [0], [0], [0]] = .error e :=
  c6_invalid_construction_rejected _ _ _ (Or.inl (by with_unfolding_all decide))

/-- C10 amended: on every discontinuity-free instance with at least one
segment, scalar and batched evaluation clamp the computed segment index
into `[0, n_segments - 1]`, the interpolant lookup at that index
succeeds, the only error `_call_single` can raise is the `TypeError` of a
non-callable stored interpolant (never an out-of-range error), and for an
ascending instance an out-of-range query time below all boundaries uses
segment `0` and above all boundaries uses segment `n_segments - 1`.  (The
claim as stated fails for the constructible zero-segment instance, where
the clamped index is `-1` and evaluation raises `IndexError`.) -/
theorem c10_clamped_extrapolation (s : ContinuousExt) (t : ℚ) (tq : List ℚ)
    (hrep : s.repeated_t = false)
    (hn : s.n_segments = s.interpolants.length)
    (h1 : 1 ≤ s.n_segments)
    (hlen : s.ts_sorted.length = s.n_segments + 1) :
    (0 ≤ selectSegment s.ascending s.ts_sorted (s.n_segments : ℤ) t
      ∧ selectSegment s.ascending s.ts_sorted (s.n_segments : ℤ) t ≤ (s.n_segments : ℤ) - 1)
    ∧ (∃ v, pyGetI s.interpolants
        (selectSegment s.ascending s.ts_sorted (s.n_segments : ℤ) t) = .ok v)
    ∧ (∀ e, callSingle s t = .error e → e = "TypeError: object is not callable")
    ∧ (s.ascending = true → (∀ x ∈ s.ts_sorted, t < x) →
        selectSegment s.ascending s.ts_sorted (s.n_segments : ℤ) t = 0)
    ∧ (s.ascending = true → (∀ x ∈ s.ts_sorted, x < t) →
        selectSegment s.ascending s.ts_sorted (s.n_segments : ℤ) t = (s.n_segments : ℤ) - 1)
    ∧ (∀ q ∈ batchSegments s.ascending s.ts_sorted (s.n_segments : ℤ) tq,
        0 ≤ q ∧ q ≤ (s.n_segments : ℤ) - 1) := by
  have hn1 : (1 : ℤ) ≤ (s.n_segments : ℤ) := by exact_mod_cast h1
  obtain ⟨hb0, hb1⟩ := selectSegment_bounds s.ascending s.ts_sorted (s.n_segments : ℤ) t hn1
  have hok : ∃ v, pyGetI s.interpolants
      (selectSegment s.ascending s.ts_sorted (s.n_segments : ℤ) t) = .ok v := by
    apply pyGetI_ok_of_lt _ _ hb0
    omega
  refine ⟨⟨hb0, hb1⟩, hok, ?_, ?_, ?_, ?_⟩
  · intro e he
    obtain ⟨v, hv⟩ := hok
    unfold callSingle at he
    rw [hrep] at he
    simp only [Bool.false_and, Bool.false_eq_true, if_false, reduceIte] at he
    rw [hv] at he
    by_cases hseg : selectSegment s.ascending s.ts_sorted (s.n_segments : ℤ) t = 0
    · rw [if_pos hseg] at he
      cases v <;> simp at he
    · rw [if_neg hseg] at he
      cases v with
      | hlist fs => simpa using he.symm
      | hfun f => simp at he
      | hconst w => simpa using he.symm
  · intro hasc hlow
    have hc : ssLeft s.ts_sorted t = 0 := by
      apply List.countP_eq_zero.mpr
      intro a ha
      simp only [decide_eq_true_eq, not_lt]
      exact le_of_lt (hlow a ha)
    simp only [selectSegment, hasc, if_true, hc, reduceIte]
    simp only [min_def, max_def]
    split_ifs <;> omega
  · intro hasc hhigh
    have hc : ssLeft s.ts_sorted t = s.ts_sorted.length := by
      apply List.countP_eq_length.mpr
      intro a ha
      simp only [decide_eq_true_eq]
      exact hhigh a ha
    simp only [selectSegment, hasc, if_true, hc, reduceIte]
    simp only [min_def, max_def]
    split_ifs <;> omega
  · intro q hq
    obtain ⟨x, _, hx⟩ := List.mem_map.mp hq
    rw [← hx]
    exact batchSegment_bounds s.ascending s.ts_sorted (s.n_segments : ℤ) x hn1

/-- A concrete discontinuity-free two-segment ascending instance, as
produced by construction from `ts = [0, 1, 2]`. -/
def instC10 : ContinuousExt :=
  ⟨false, [], [], [], [[0], [1], [2]], 2, [0, 1, 2],
    [Interp.hfun (fun u => [u]), Interp.hfun (fun u => [u + 10])], 0, 2, true, [0, 1, 2]⟩

/-- C10 amended, witness: on the two-segment ascending instance the
segment index for the out-of-range time `5` is clamped into `[0, 1]` and
the out-of-range time `-5` is assigned the first segment. -/
theorem c10_clamped_extrapolation_witness :
    (0 ≤ selectSegment true [0, 1, 2] 2 5 ∧ selectSegment true [0, 1, 2] 2 5 ≤ 1)
    ∧ selectSegment true [0, 1, 2] 2 (-5) = 0 := by
  constructor
  · have h := (c10_clamped_extrapolation instC10 5 [] rfl rfl (by decide) rfl).1
    simpa [instC10] using h
  · have h := (c10_clamped_extrapolation instC10 (-5) [] rfl rfl (by decide) rfl).2.2.2.1
      rfl (by with_unfolding_all decide)
    simpa [instC10] using h

theorem callSingle_congr (s s' : ContinuousExt) (t : ℚ)
    (h1 : s'.repeated_t = s.repeated_t) (h2 : s'.t_discont = s.t_discont)
    (h3 : s'.y_discont = s.y_discont) (h4 : s'.ascending = s.ascending)
    (h5 : s'.ts_sorted = s.ts_sorted) (h6 : s'.n_segments = s.n_segments)
    (h7 : pyGetI s'.interpolants (selectSegment s.ascending s.ts_sorted (s.n_segments : ℤ) t)
        = pyGetI s.interpolants (selectSegment s.ascending s.ts_sorted (s.n_segments : ℤ) t)) :
    callSingle s' t = callSingle s t := by
  simp only [callSingle]
  rw [h1, h2, h3, h4, h5, h6, h7]

/-- C8: `reorganize(t0_new)` truncates `ts` and `interpolants` to the
prefix of length one past the leftmost insertion position of `t0_new`.
For an ascending instance and `t0_new` equal to boundary `ts[i]`, the
truncated `ts` ends exactly at that boundary, `interpolants` keeps one
interpolant past the `i` segments ending there, and every query at an
earlier time returns exactly what it returned before the truncation. -/
theorem c8_reorganize_truncation (s : ContinuousExt) (i : ℕ)
    (hasc : s.ascending = true) (hts : s.ts_sorted = s.ts)
    (hsort : s.ts.Pairwise (· < ·))
    (hn : s.n_segments = s.interpolants.length)
    (hi : i < s.ts.length) :
    (reorganize s s.ts[i]).ts = s.ts.take (i + 1)
    ∧ (reorganize s s.ts[i]).interpolants = s.interpolants.take (i + 1)
    ∧ (reorganize s s.ts[i]).ts.getLastD 0 = s.ts[i]
    ∧ ∀ t : ℚ, t < s.ts[i] → callSingle (reorganize s s.ts[i]) t = callSingle s t := by
  have hss : ssLeft s.ts s.ts[i] = i := ssLeft_sorted s.ts hsort i hi
  have hts' : (reorganize s s.ts[i]).ts = s.ts.take (i + 1) := by
    simp [reorganize, hss]
  have hint : (reorganize s s.ts[i]).interpolants = s.interpolants.take (i + 1) := by
    simp [reorganize, hss]
  refine ⟨hts', hint, ?_, ?_⟩
  · rw [hts']
    exact getLastD_take s.ts i hi
  · intro t ht
    apply callSingle_congr s (reorganize s s.ts[i]) t rfl rfl rfl rfl rfl rfl
    rw [hint]
    by_cases hzero : s.interpolants.length = 0
    · rw [List.length_eq_zero.mp hzero]
      simp
    · have hone : (1 : ℤ) ≤ (s.n_segments : ℤ) := by
        rw [hn]; exact_mod_cast Nat.one_le_iff_ne_zero.mpr hzero
      have hb := selectSegment_bounds s.ascending s.ts_sorted (s.n_segments : ℤ) t hone
      have hmono : ssLeft s.ts t ≤ i := by
        have hle : ssLeft s.ts t ≤ ssLeft s.ts s.ts[i] := by
          apply List.countP_mono_left
          intro a _ hlt
          simp only [decide_eq_true_eq] at *
          exact lt_trans hlt ht
        rw [hss] at hle
        exact hle
      have hsegle : selectSegment s.ascending s.ts_sorted (s.n_segments : ℤ) t ≤ (i : ℤ) := by
        simp only [selectSegment, hasc, hts, if_true, reduceIte]
        simp only [min_def, max_def]
        split_ifs <;> omega
      exact pyGetI_take_eq s.interpolants i _ hb.1 hsegle

/-- A concrete discontinuity-free two-segment ascending instance, as
produced by construction from `ts = [0, 1, 2]`, for the C8 witness. -/
def instC8 : ContinuousExt :=
  ⟨false, [], [], [], [[0], [1], [2]], 2, [0, 1, 2],
    [Interp.hfun (fun u => [u]), Interp.hfun (fun u => [u + 10])], 0, 2, true, [0, 1, 2]⟩

/-- C8 witness: truncating the two-segment instance at its middle
boundary `1` keeps `ts = [0, 1]` and two interpolants, ends at `1`, and
leaves the query at `1/2` unchanged. -/
theorem c8_reorganize_truncation_witness :
    (reorganize instC8 1).ts = [0, 1]
    ∧ (reorganize instC8 1).interpolants = instC8.interpolants.take 2
    ∧ (reorganize instC8 1).ts.getLastD 0 = 1
    ∧ callSingle (reorganize instC8 1) (1/2) = callSingle instC8 (1/2) := by
  obtain ⟨ha, hb, hc, hd⟩ := c8_reorganize_truncation instC8 1 rfl rfl
    (by with_unfolding_all decide) rfl (by decide)
  exact ⟨ha, hb, hc, hd (1/2) (by with_unfolding_all decide)⟩

/-- C4: for a boundary sequence with one adjacent near-duplicate pair
(`|ts[2] - ts[1]| < EPS`, the jump encoding) and ordinary gaps elsewhere,
construction succeeds, records the duplicated time `ts[2]` and the
post-jump value `ys[2]` (the entry at the second duplicate index), and a
scalar query exactly at the duplicated time returns that recorded
post-jump value, not a value from the pre-jump segment interpolant. -/
theorem c4_jump_recorded_and_returned (a b b' c : ℚ) (ya yb yj yc : List ℚ)
    (i1 i2 : Interp)
    (hab : EPS ≤ b - a) (hbb : |b' - b| < EPS) (hbc : EPS ≤ c - b') :
    ∃ st, init [a, b, b', c] [i1, i2] [ya, yb, yj, yc] = .ok st
      ∧ st.t_discont = [b'] ∧ st.y_discont = [yj]
      ∧ callSingle st b' = .ok yj := by
  have hE : (0 : ℚ) < EPS := by with_unfolding_all decide
  have h2 := abs_lt.mp hbb
  have d1 : ¬ (b - a < EPS) := not_lt.mpr hab
  have d3 : ¬ (c - b' < EPS) := not_lt.mpr hbc
  have hba : 0 < b - a := lt_of_lt_of_le hE hab
  have hcb : 0 < c - b := by linarith [h2.1]
  have hac : a ≤ c := by linarith
  have hdiff : listDiff [a, b, b', c] = [b - a, b' - b, c - b'] := rfl
  have hrep : (listDiff [a, b, b', c]).any (fun d => decide (d < EPS)) = true := by
    simp [hdiff, h2.2]
  have hidxs : initIdxs [a, b, b', c] = [2] := by
    simp [initIdxs, hrep, dupIdxs, hdiff, List.enum, d1, h2.2, d3]
  have hm1 : ([2] : List ℕ).mapM (fun i => pyIdxN [a, b, b', c] i) = .ok [b'] := rfl
  have hm2 : ([2] : List ℕ).mapM (fun i => pyIdxN [ya, yb, yj, yc] i) = .ok [yj] := rfl
  have hts' : removeIdxs [a, b, b', c] [2] = [a, b, c] := by
    simp [removeIdxs, List.enum]
  have hys' : removeIdxs [ya, yb, yj, yc] [2] = [ya, yb, yc] := by
    simp [removeIdxs, List.enum]
  have hmono : monotonicOKBool [a, b, c] = true := by
    simp [monotonicOKBool, listDiff, hba, hcb]
  refine ⟨⟨true, [2], [b'], [yj], [ya, yb, yc], 2, [a, b, c], [i1, i2], a, c, true,
    [a, b, c]⟩, ?_, rfl, rfl, ?_⟩
  · simp only [init, hidxs, hm1, hm2, hts', hys', hmono, if_true, hrep]
    simp [hac]
  · simp only [callSingle]
    have habs : |b' - b'| < EPS := by
      rw [sub_self, abs_zero]
      exact hE
    simp [habs, ssLeft, pyIdxN, lt_irrefl]
    exact fun hle => absurd hle (not_le.mpr hE)

/-- C4 witness: boundaries `[0, 1, 1, 2]` with `ys = [[0], [1], [5], [2]]`
give a jump at time `1`; construction succeeds, records `(1, [5])`, and
the scalar query at `1` returns `[5]`. -/
theorem c4_jump_recorded_and_returned_witness :
    ∃ st, init [0, 1, 1, 2] [Interp.hfun (fun u => [u]), Interp.hfun (fun u => [u + 10])]
        [[0], [1], [5], [2]] = .ok st
      ∧ st.t_discont = [1] ∧ st.y_discont = [[5]]
      ∧ callSingle st 1 = .ok [5] :=
  c4_jump_recorded_and_returned 0 1 1 2 [0] [1] [5] [2] _ _
    (by with_unfolding_all decide) (by with_unfolding_all decide)
    (by with_unfolding_all decide)

theorem normRMS_singleton (x : ℝ) : normRMS [x] = |x| := by
  simp [normRMS, Real.sqrt_sq_eq_abs]

theorem normRMS_nonneg (x : List ℝ) : 0 ≤ normRMS x :=
  div_nonneg (Real.sqrt_nonneg _) (Real.sqrt_nonneg _)

/-- C9: for an empty state vector `select_initial_step` returns the
unbounded step (modelled as `none`); for `y0 = [1]`, `f0 = [1]`,
`order = 4`, `rtol = 1/1000`, `atol = 1/1000000` the tolerance-scaled
norms give `d0 = d1 = 1000000/1001`, far above both the `1e-5` branch
point and the `1e-15` floor, so `h0 = 1/100` and the function returns
`min (100 * h0) h1` with `h1 = (0.01 / max d1 d2) ^ (1/(order + 1))`, a
positive value no larger than `100 * h0 = 1`, for every right-hand side,
history term and direction. -/
theorem c9_select_initial_step :
    (∀ (f : ℝ → List ℝ → List ℝ → List ℝ) (t0 : ℝ) (Z0 f0 : List ℝ)
        (direction order rtol atol : ℝ),
      select_initial_step f t0 [] Z0 f0 direction order rtol atol = none)
    ∧ (∀ (f : ℝ → List ℝ → List ℝ → List ℝ) (Z0 : List ℝ) (direction : ℝ),
      ∃ d2 : ℝ, 0 ≤ d2
        ∧ select_initial_step f 0 [1] Z0 [1] direction 4 (1/1000) (1/1000000)
            = some (min (100 * (1/100))
                ((0.01 / max (1000000/1001) d2) ^ ((1 : ℝ)/(4 + 1))))
        ∧ 0 < min (100 * (1/100))
            ((0.01 / max ((1000000 : ℝ)/1001) d2) ^ ((1 : ℝ)/(4 + 1)))
        ∧ min (100 * (1/100))
            ((0.01 / max ((1000000 : ℝ)/1001) d2) ^ ((1 : ℝ)/(4 + 1)))
            ≤ 100 * (1/100)) := by
  constructor
  · intro f t0 Z0 f0 direction order rtol atol
    simp [select_initial_step]
  · intro f Z0 dir
    have hS : (1/1000000 : ℝ) + |(1 : ℝ)| * (1/1000) = 1001/1000000 := by
      rw [abs_one]; norm_num
    have hd0 : normRMS [(1 : ℝ) / (1001/1000000)] = 1000000/1001 := by
      rw [normRMS_singleton, abs_of_pos (by norm_num)]
      norm_num
    have hh0 : (0.01 : ℝ) * (1000000/1001) / (1000000/1001) = 1/100 := by norm_num
    have hbase : (0 : ℝ) < 0.01 / max ((1000000 : ℝ)/1001) (normRMS (List.zipWith
        (fun a b => a / b) (List.zipWith (fun a b => a - b)
          (f (0 + 1/100 * dir) [1 + 1/100 * dir * 1] Z0) [1]) [1001/1000000]) / (1/100)) := by
      apply div_pos (by norm_num)
      exact lt_of_lt_of_le (by norm_num) (le_max_left _ _)
    have hpos := Real.rpow_pos_of_pos hbase ((1 : ℝ)/(4 + 1))
    refine ⟨normRMS (List.zipWith (fun a b => a / b) (List.zipWith (fun a b => a - b)
        (f (0 + 1/100 * dir) [1 + 1/100 * dir * 1] Z0) [1]) [1001/1000000]) / (1/100),
      div_nonneg (normRMS_nonneg _) (by norm_num), ?_,
      lt_min (by norm_num) hpos, min_le_left _ _⟩
    simp only [select_initial_step]
    rw [if_neg (by simp : ¬(List.length [(1 : ℝ)] = 0))]
    simp only [List.map_cons, List.map_nil, List.zipWith_cons_cons, List.zipWith_nil_right,
      List.zipWith_nil_left]
    rw [hS, hd0]
    rw [if_neg (by norm_num : ¬((1000000 : ℝ)/1001 < 1e-5 ∨ (1000000 : ℝ)/1001 < 1e-5))]
    rw [hh0]
    rw [if_neg (fun h => absurd h.1 (by norm_num : ¬((1000000 : ℝ)/1001 ≤ 1e-15)))]

end DDE
